import Mathlib

/-!
# Verification of the WordGate SDK webhook authentication subsystem

Shallow embedding of the webhook signing / verification protocol of the
`wordgate/wordgate-sdk` repository (`webhook.md`: `generateSignature`,
`verifySignature`; `webhook.go`: `WebhookEventData`, `Parse`, event payload
shapes), together with proofs of the specification's claims about it.

Bytes are modelled as `Nat` values (`< 256` where it matters, with explicit
`% 256` at every point the Go code truncates to a machine byte), 32-bit words
as `Nat` with explicit `% 2^32`, `int64` values as `Int` with explicit range
hypotheses, and Go strings as `List Char`.
-/

namespace Wordgate

/-! ## 32-bit word primitives (Go `uint32` arithmetic, `math/bits` style) -/

/-- `2^32`, the modulus of Go `uint32` arithmetic. -/
def w32 : Nat := 4294967296

/-- Addition of 32-bit words (Go `+` on `uint32`). -/
def add32 (a b : Nat) : Nat := (a + b) % w32

/-- Right rotation of a 32-bit word by `n` bits (Go `bits.RotateLeft32 (x, -n)`). -/
def rotr32 (n x : Nat) : Nat := (x / 2 ^ n) + (x % 2 ^ n) * 2 ^ (32 - n)

/-- Logical right shift (Go `>>` on `uint32`). -/
def shr32 (n x : Nat) : Nat := x / 2 ^ n

/-- Bitwise complement of a 32-bit word (Go `^x` on `uint32`). -/
def not32 (x : Nat) : Nat := Nat.xor x (w32 - 1)

/-! ## SHA-256 (`crypto/sha256`)

The hash used by both the signer and the verifier through
`hmac.New(sha256.New, ...)`.  Translated from FIPS 180-4 exactly as Go's
`crypto/sha256` implements it; messages and digests are byte lists. -/

/-- The SHA-256 round constants `K` (FIPS 180-4 §4.2.2, written in
decimal). -/
def K256 : List Nat :=
  [1116352408, 1899447441, 3049323471, 3921009573, 961987163,
   1508970993, 2453635748, 2870763221, 3624381080, 310598401,
   607225278, 1426881987, 1925078388, 2162078206, 2614888103,
   3248222580, 3835390401, 4022224774, 264347078, 604807628,
   770255983, 1249150122, 1555081692, 1996064986, 2554220882,
   2821834349, 2952996808, 3210313671, 3336571891, 3584528711,
   113926993, 338241895, 666307205, 773529912, 1294757372,
   1396182291, 1695183700, 1986661051, 2177026350, 2456956037,
   2730485921, 2820302411, 3259730800, 3345764771, 3516065817,
   3600352804, 4094571909, 275423344, 430227734, 506948616,
   659060556, 883997877, 958139571, 1322822218, 1537002063,
   1747873779, 1955562222, 2024104815, 2227730452, 2361852424,
   2428436474, 2756734187, 3204031479, 3329325298]

/-- The running hash state: eight 32-bit words `a..h`. -/
structure H8 where
  a : Nat
  b : Nat
  c : Nat
  d : Nat
  e : Nat
  f : Nat
  g : Nat
  h : Nat
deriving Repr, DecidableEq

/-- The SHA-256 initial hash value `H⁽⁰⁾` (FIPS 180-4 §5.3.3, written in
decimal). -/
def initH : H8 :=
  ⟨1779033703, 3144134277, 1013904242, 2773480762,
   1359893119, 2600822924, 528734635, 1541459225⟩

/-- Message-schedule function `σ₀`. -/
def ssig0 (x : Nat) : Nat := Nat.xor (Nat.xor (rotr32 7 x) (rotr32 18 x)) (shr32 3 x)

/-- Message-schedule function `σ₁`. -/
def ssig1 (x : Nat) : Nat := Nat.xor (Nat.xor (rotr32 17 x) (rotr32 19 x)) (shr32 10 x)

/-- Compression function `Σ₀`. -/
def bsig0 (x : Nat) : Nat := Nat.xor (Nat.xor (rotr32 2 x) (rotr32 13 x)) (rotr32 22 x)

/-- Compression function `Σ₁`. -/
def bsig1 (x : Nat) : Nat := Nat.xor (Nat.xor (rotr32 6 x) (rotr32 11 x)) (rotr32 25 x)

/-- One SHA-256 round: consume one `(Kᵢ, Wᵢ)` pair. -/
def round256 (st : H8) (kw : Nat × Nat) : H8 :=
  let t1 := (st.h + bsig1 st.e + (Nat.xor (Nat.land st.e st.f) (Nat.land (not32 st.e) st.g))
              + kw.1 + kw.2) % w32
  let t2 := (bsig0 st.a
              + (Nat.xor (Nat.xor (Nat.land st.a st.b) (Nat.land st.a st.c)) (Nat.land st.b st.c))) % w32
  ⟨(t1 + t2) % w32, st.a, st.b, st.c, (st.d + t1) % w32, st.e, st.f, st.g⟩

/-- Big-endian 32-bit words from a block of bytes. -/
def bytesToWords : List Nat → List Nat
  | a :: b :: c :: d :: rest =>
      ((a % 256) * 2 ^ 24 + (b % 256) * 2 ^ 16 + (c % 256) * 2 ^ 8 + d % 256) :: bytesToWords rest
  | _ => []

/-- One step of extending the 16-word schedule to 64 words. -/
def schedStep (acc : List Nat) (_i : Nat) : List Nat :=
  let n := acc.length
  acc ++ [add32 (add32 (ssig1 (acc.getD (n - 2) 0)) (acc.getD (n - 7) 0))
               (add32 (ssig0 (acc.getD (n - 15) 0)) (acc.getD (n - 16) 0))]

/-- The full 64-entry message schedule `W` of one block. -/
def sched (ws : List Nat) : List Nat := (List.range 48).foldl schedStep ws

/-- Compress one 64-byte block into the running state (rounds plus the
Davies–Meyer feed-forward addition). -/
def compressBlock (st : H8) (block : List Nat) : H8 :=
  let fin := ((K256.zip (sched (bytesToWords block)))).foldl round256 st
  ⟨add32 st.a fin.a, add32 st.b fin.b, add32 st.c fin.c, add32 st.d fin.d,
   add32 st.e fin.e, add32 st.f fin.f, add32 st.g fin.g, add32 st.h fin.h⟩

/-- Split a byte list into 64-byte blocks. -/
def toBlocks (l : List Nat) : List (List Nat) :=
  if hl : l = [] then [] else
    l.take 64 :: toBlocks (l.drop 64)
termination_by l.length
decreasing_by
  simp only [List.length_drop]
  have : 0 < l.length := List.length_pos.mpr hl
  omega

/-- The 8-byte big-endian encoding of the 64-bit message bit length. -/
def lenBytes64 (n : Nat) : List Nat :=
  [n / 2 ^ 56 % 256, n / 2 ^ 48 % 256, n / 2 ^ 40 % 256, n / 2 ^ 32 % 256,
   n / 2 ^ 24 % 256, n / 2 ^ 16 % 256, n / 2 ^ 8 % 256, n % 256]

/-- SHA-256 padding: `0x80`, zeros to 56 mod 64, then the bit length. -/
def sha256pad (msg : List Nat) : List Nat :=
  msg ++ 0x80 :: List.replicate ((119 - msg.length % 64) % 64) 0 ++ lenBytes64 (8 * msg.length)

/-- The four big-endian bytes of a 32-bit word (Go `byte(w>>24)`, ...). -/
def wordBytes (w : Nat) : List Nat :=
  [w / 2 ^ 24 % 256, w / 2 ^ 16 % 256, w / 2 ^ 8 % 256, w % 256]

/-- SHA-256 of a byte list: the 32-byte digest. -/
def sha256 (msg : List Nat) : List Nat :=
  let st := (toBlocks (sha256pad msg)).foldl compressBlock initH
  wordBytes st.a ++ wordBytes st.b ++ wordBytes st.c ++ wordBytes st.d ++
  wordBytes st.e ++ wordBytes st.f ++ wordBytes st.g ++ wordBytes st.h

/-! ## HMAC-SHA256 (`crypto/hmac`) -/

/-- HMAC-SHA256 (RFC 2104, as implemented by Go's `crypto/hmac` over
`sha256.New`): keys longer than the 64-byte block are hashed first, shorter
keys are zero-padded. -/
def hmacSha256 (key msg : List Nat) : List Nat :=
  let k0 := if 64 < key.length then sha256 key else key
  let kpad := k0 ++ List.replicate (64 - k0.length) 0
  sha256 ((kpad.map (fun b => Nat.xor b 0x5c)) ++
          sha256 ((kpad.map (fun b => Nat.xor b 0x36)) ++ msg))

/-! ## Decimal formatting and parsing (`strconv.FormatInt`, `strconv.ParseInt`)

`generateSignature` builds the signed message with
`strconv.FormatInt(timestamp, 10)`, and `verifySignature` recovers the
timestamp with `timestamp, _ = strconv.ParseInt(..., 10, 64)` — the error is
discarded, so only the returned value matters: `0` on a syntax error and the
clamped extreme on a range error. -/

/-- The ASCII character of one decimal digit. -/
def decChar (d : Nat) : Char :=
  match d with
  | 0 => '0' | 1 => '1' | 2 => '2' | 3 => '3' | 4 => '4'
  | 5 => '5' | 6 => '6' | 7 => '7' | 8 => '8' | 9 => '9'
  | _ => '*'

/-- The decimal digit of an ASCII character, if it is one. -/
def charDigit? (c : Char) : Option Nat :=
  if 48 ≤ c.toNat ∧ c.toNat ≤ 57 then some (c.toNat - 48) else none

/-- Decimal representation of a natural number, most significant digit first
(Go `strconv.FormatUint(n, 10)`). -/
def formatNat (n : Nat) : List Char :=
  if n = 0 then ['0'] else ((Nat.digits 10 n).reverse).map decChar

/-- Decimal representation of an integer (Go `strconv.FormatInt(t, 10)`). -/
def formatInt (t : Int) : List Char :=
  if t < 0 then '-' :: formatNat t.natAbs else formatNat t.natAbs

/-- Outcome of Go's `strconv.ParseUint` digit loop: the accumulated value, a
range overflow, or a syntax error. -/
inductive PUResult where
  | ok (v : Nat)
  | rangeErr
  | syntaxErr
deriving Repr, DecidableEq

/-- The digit loop of Go's `strconv.ParseUint(s, 10, 64)`: stops with a range
error as soon as the accumulator would exceed `2^64 - 1`, and with a syntax
error at the first non-digit character. -/
def parseUintAux : List Char → Nat → PUResult
  | [], acc => .ok acc
  | c :: rest, acc =>
      match charDigit? c with
      | none => .syntaxErr
      | some d => if 2 ^ 64 ≤ acc * 10 + d then .rangeErr else parseUintAux rest (acc * 10 + d)

/-- The value returned by Go's `strconv.ParseInt(s, 10, 64)` (first return
value only; `verifySignature` discards the error): `0` on empty input or a
syntax error, the clamped extreme of `int64` on a range error, the parsed
value otherwise. -/
def goParseInt64 (s : List Char) : Int :=
  match s with
  | [] => 0
  | c :: rest =>
      let neg : Bool := c = '-'
      let digits := if c = '-' ∨ c = '+' then rest else c :: rest
      match parseUintAux digits 0 with
      | .syntaxErr => 0
      | .rangeErr => if neg then -(2 ^ 63) else 2 ^ 63 - 1
      | .ok un =>
          if neg = false ∧ 2 ^ 63 ≤ un then 2 ^ 63 - 1
          else if neg = true ∧ 2 ^ 63 < un then -(2 ^ 63)
          else if neg then -(un : Int) else (un : Int)

/-! ## Hex encoding (`encoding/hex`) -/

/-- The lowercase hex digit table of `encoding/hex` (`"0123456789abcdef"`),
indexed by a nibble. -/
def hexDigitChar (n : Nat) : Char :=
  match n with
  | 0 => '0' | 1 => '1' | 2 => '2' | 3 => '3' | 4 => '4' | 5 => '5' | 6 => '6' | 7 => '7'
  | 8 => '8' | 9 => '9' | 10 => 'a' | 11 => 'b' | 12 => 'c' | 13 => 'd' | 14 => 'e' | 15 => 'f'
  | _ => '*'

/-- `hex.EncodeToString`: each byte becomes its high then its low nibble. -/
def hexEncode : List Nat → List Char
  | [] => []
  | b :: rest => hexDigitChar (b / 16) :: hexDigitChar (b % 16) :: hexEncode rest

/-- The byte encoding of an ASCII character list (Go `[]byte(s)` for the ASCII
strings this protocol builds). -/
def strBytes (s : List Char) : List Nat := s.map Char.toNat

/-! ## Header building and verification (`webhook.md`)

`generateSignature` (webhook.md lines 46–55) and `verifySignature`
(webhook.md lines 67–103), translated statement by statement.  The ambient
`time.Now().Unix()` becomes the explicit parameter `now`, and the freshness
window — hardcoded `300` in the webhook.md pseudocode, a parameter of the
SDK's `VerifySignature(header, body, secret, maxAge)` shown in its usage
section — becomes the explicit parameter `maxAge`. -/

/-- The `"t="` field tag. -/
def tsTag : List Char := ['t', '=']

/-- The `"sha256="` field tag. -/
def sigTag : List Char := ['s', 'h', 'a', '2', '5', '6', '=']

/-- Go `strings.HasPrefix(s, pre)` (arguments here as `startsWith pre s`). -/
def startsWith : List Char → List Char → Bool
  | [], _ => true
  | _ :: _, [] => false
  | p :: ps, c :: cs => p = c && startsWith ps cs

/-- Go `strings.TrimPrefix(s, pre)`: drop `pre` when it leads, else return
`s` unchanged. -/
def dropTag (pre s : List Char) : List Char :=
  if startsWith pre s then s.drop pre.length else s

/-- Go `strings.Split(s, ",")`. -/
def splitOnComma : List Char → List (List Char)
  | [] => [[]]
  | c :: rest =>
      if c = ',' then [] :: splitOnComma rest
      else
        match splitOnComma rest with
        | [] => [[c]]
        | p :: ps => (c :: p) :: ps

/-- The `for _, part := range parts` loop of `verifySignature`: each part is
matched against `t=` first and `sha256=` second; matches overwrite the
accumulated `timestamp` (initially `0`) and `signature` (initially `""`). -/
def parseLoop : List (List Char) → Int → List Char → Int × List Char
  | [], t, s => (t, s)
  | p :: ps, t, s =>
      if startsWith tsTag p then parseLoop ps (goParseInt64 (dropTag tsTag p)) s
      else if startsWith sigTag p then parseLoop ps t (dropTag sigTag p)
      else parseLoop ps t s

/-- The `(timestamp, signature)` pair `verifySignature` extracts from a
header value. -/
def parseHeaderFields (headerValue : List Char) : Int × List Char :=
  parseLoop (splitOnComma headerValue) 0 []

/-- `Sign(timestamp, body, secret)`: the hex-encoded HMAC-SHA256 of
`FormatInt(timestamp, 10) + "." + body` keyed by `secret` (the signature part
of `generateSignature`; `'.'` is byte 46). -/
def sign (timestamp : Int) (body secret : List Nat) : List Char :=
  hexEncode (hmacSha256 secret (strBytes (formatInt timestamp) ++ 46 :: body))

/-- `BuildHeader(timestamp, body, secret)`: the full header value
`fmt.Sprintf("t=%d,sha256=%s", timestamp, signature)` returned by
`generateSignature`. -/
def buildHeader (timestamp : Int) (body secret : List Nat) : List Char :=
  tsTag ++ formatInt timestamp ++ ',' :: (sigTag ++ sign timestamp body secret)

/-- The same two fields written in the reversed order
`sha256=<signature>,t=<timestamp>`. -/
def buildHeaderRev (timestamp : Int) (body secret : List Nat) : List Char :=
  sigTag ++ sign timestamp body secret ++ ',' :: (tsTag ++ formatInt timestamp)

/-- Outcome of `verifySignature`, naming the error taxonomy of the spec:
`.malformedHeader` is `"invalid signature header format"`, `.expired` is
`"timestamp too old"`, `.signatureMismatch` is
`"signature verification failed"`, and `.ok` is the `nil` return. -/
inductive VerifyResult where
  | ok
  | malformedHeader
  | expired
  | signatureMismatch
deriving Repr, DecidableEq

/-- `verifySignature(headerValue, body, secret)` from webhook.md, with the
clock and the freshness window explicit: split on `,` and require exactly two
parts; run the tag-matching loop; reject `now - timestamp > maxAge` as
expired; recompute the signature over the received body and compare
(`hmac.Equal` is byte equality). -/
def verifySignature (headerValue : List Char) (body secret : List Nat)
    (maxAge now : Int) : VerifyResult :=
  let parts := splitOnComma headerValue
  if parts.length ≠ 2 then .malformedHeader
  else
    let ts := parseLoop parts 0 []
    if maxAge < now - ts.1 then .expired
    else if ts.2 = sign ts.1 body secret then .ok
    else .signatureMismatch

/-- `verifySignature` instrumented with the number of HMAC-SHA256
computations it performs: the recomputation in step 3 is the only one, and it
is reached only after the parse and freshness checks pass. -/
def verifySignatureHmacCount (headerValue : List Char) (body secret : List Nat)
    (maxAge now : Int) : VerifyResult × Nat :=
  let parts := splitOnComma headerValue
  if parts.length ≠ 2 then (.malformedHeader, 0)
  else
    let ts := parseLoop parts 0 []
    if maxAge < now - ts.1 then (.expired, 0)
    else if ts.2 = sign ts.1 body secret then (.ok, 1)
    else (.signatureMismatch, 1)

/-- The set of characters a signature may contain: the lowercase hex
alphabet (the digits followed by the letters `a`–`f`). -/
def hexCharSet : List Char :=
  ['0', '1', '2', '3', '4', '5', '6', '7', '8', '9'] ++ ['a', 'b', 'c', 'd', 'e', 'f']

/-- The ASCII whitespace characters. -/
def isSpaceChar (c : Char) : Bool :=
  c = ' ' || c = '\t' || c = '\n' || c = '\r'

/-! ## Event envelope and payload decoding (`webhook.go`)

`WebhookEventData` and its `Parse` method, together with a model of the
`encoding/json` behaviour the claims depend on.  Wire JSON is represented by
the AST `Json`; numbers are restricted to the integers (the only numbers the
webhook payloads carry).  Two `encoding/json` facts are modelled explicitly:

* unmarshalling a number into an `any`-typed field stores an IEEE-754
  binary64 value, so the integer is rounded to 53 significant bits
  (`roundF`), while unmarshalling into an `int64`/`uint64`-typed struct field
  parses the original token exactly (range-checked);
* absent fields and `null` leave the zero value and are not errors, and a
  duplicated key is decoded last-occurrence-wins.

Field names are matched exactly (the case-insensitive fallback of
`encoding/json` is not exercised by any claim), and the RFC 3339 validation
of `*time.Time` fields is not modelled — time values are kept as raw
strings; no claim feeds a time field.  `json.Marshal` of a decoded dynamic
value followed by re-parsing is modelled as the identity on the tree, which
is exact on the integer ranges every claim touches. -/

/-- Wire JSON values (integer numbers only). -/
inductive Json where
  | null
  | bool (v : Bool)
  | num (v : Int)
  | str (s : String)
  | arr (xs : List Json)
  | obj (fields : List (String × Json))

/-- Fuel-bounded search for the IEEE exponent: the number of halvings that
bring `n` under `2^53`.  The fuel of 128 covers every value below `2^181`,
far beyond the `int64` wire values this decode can see. -/
def ulpExpAux : Nat → Nat → Nat
  | 0, _ => 0
  | fuel + 1, n => if n < 2 ^ 53 then 0 else ulpExpAux fuel (n / 2) + 1

/-- The number of low bits IEEE-754 binary64 drops from the integer `n`. -/
def ulpExp (n : Nat) : Nat := ulpExpAux 128 n

/-- Round a natural number to 53 significant bits, ties to even: the value of
the IEEE-754 binary64 double nearest to `n`. -/
def roundFNat (n : Nat) : Nat :=
  let e := ulpExp n
  let q := n / 2 ^ e
  let r := n % 2 ^ e
  (if 2 ^ e < 2 * r ∨ (2 * r = 2 ^ e ∧ q % 2 = 1) then q + 1 else q) * 2 ^ e

/-- The integer value of the IEEE-754 binary64 double nearest to `v`: the
number stored when `encoding/json` decodes the integer token `v` into an
`any`-typed destination. -/
def roundF (v : Int) : Int :=
  if v < 0 then -(roundFNat v.natAbs : Int) else (roundFNat v.natAbs : Int)

mutual

/-- The dynamic (`any`-typed) value `encoding/json` produces for a wire JSON
value: the same tree with every number rounded to binary64. -/
def toDyn : Json → Json
  | .null => .null
  | .bool v => .bool v
  | .num v => .num (roundF v)
  | .str s => .str s
  | .arr xs => .arr (toDynList xs)
  | .obj fs => .obj (toDynFields fs)

/-- `toDyn` on a list of values. -/
def toDynList : List Json → List Json
  | [] => []
  | x :: xs => toDyn x :: toDynList xs

/-- `toDyn` on an object's fields. -/
def toDynFields : List (String × Json) → List (String × Json)
  | [] => []
  | (k, v) :: fs => (k, toDyn v) :: toDynFields fs

end

/-- The value of key `k` in an object, last occurrence winning (the net
effect of `encoding/json` writing each occurrence in order). -/
def lookupField (k : String) : List (String × Json) → Option Json
  | [] => none
  | (k', v) :: rest =>
      match lookupField k rest with
      | some r => some r
      | none => if k' = k then some v else none

/-- Decode a `string`-typed struct field: absent or `null` leaves `""`; a
JSON string of any content succeeds; anything else is a type error. -/
def decodeStringField (fs : List (String × Json)) (k : String) : Except String String :=
  match lookupField k fs with
  | none => .ok ""
  | some .null => .ok ""
  | some (.str s) => .ok s
  | some _ => .error ("json: cannot unmarshal value into string field " ++ k)

/-- Decode a `uint64`-typed struct field: the token is parsed exactly and
must lie in `[0, 2^64)`. -/
def decodeUInt64Field (fs : List (String × Json)) (k : String) : Except String Nat :=
  match lookupField k fs with
  | none => .ok 0
  | some .null => .ok 0
  | some (.num v) =>
      if 0 ≤ v ∧ v < 2 ^ 64 then .ok v.toNat
      else .error ("json: cannot unmarshal number into uint64 field " ++ k)
  | some _ => .error ("json: cannot unmarshal value into uint64 field " ++ k)

/-- Decode an `int64`-typed struct field: the token is parsed exactly and
must lie in `[-2^63, 2^63)`. -/
def decodeInt64Field (fs : List (String × Json)) (k : String) : Except String Int :=
  match lookupField k fs with
  | none => .ok 0
  | some .null => .ok 0
  | some (.num v) =>
      if -(2 ^ 63) ≤ v ∧ v < 2 ^ 63 then .ok v
      else .error ("json: cannot unmarshal number into int64 field " ++ k)
  | some _ => .error ("json: cannot unmarshal value into int64 field " ++ k)

/-- Decode a `bool`-typed struct field. -/
def decodeBoolField (fs : List (String × Json)) (k : String) : Except String Bool :=
  match lookupField k fs with
  | none => .ok false
  | some .null => .ok false
  | some (.bool v) => .ok v
  | some _ => .error ("json: cannot unmarshal value into bool field " ++ k)

/-- Decode a `*time.Time`-typed struct field: absent or `null` is `none`; a
string is kept raw (its RFC 3339 shape is not modelled). -/
def decodeTimeField (fs : List (String × Json)) (k : String) : Except String (Option String) :=
  match lookupField k fs with
  | none => .ok none
  | some .null => .ok none
  | some (.str s) => .ok (some s)
  | some _ => .error ("json: cannot unmarshal value into time field " ++ k)

/-- `WebhookEventData` (webhook.go lines 52–57): the outer event envelope.
`data` holds the dynamic value of the `any`-typed `Data` field. -/
structure WebhookEventData where
  eventType : String
  appID : Nat
  data : Json
  timestamp : Int

/-- The event-type constants of webhook.go lines 100–104. -/
def knownEventTypes : List String :=
  ["order.paid", "order.cancelled", "membership.activated"]

/-- `json.Unmarshal` of a wire JSON value into `WebhookEventData`: the top
level must be an object; `event_type` is any string, `app_id` a `uint64`
number, `timestamp` an `int64` number, and `data` is taken dynamically. -/
def decodeEnvelope : Json → Except String WebhookEventData
  | .obj fs =>
      match decodeStringField fs "event_type" with
      | .error e => .error e
      | .ok et =>
          match decodeUInt64Field fs "app_id" with
          | .error e => .error e
          | .ok a =>
              match decodeInt64Field fs "timestamp" with
              | .error e => .error e
              | .ok ts => .ok ⟨et, a, toDyn ((lookupField "data" fs).getD .null), ts⟩
  | _ => .error "json: cannot unmarshal value into WebhookEventData"

/-- `(w *WebhookEventData) Parse(target)` (webhook.go lines 60–67):
re-marshal `w.Data` and unmarshal it into the target shape.  The method reads
`w.Data` and never assigns to `w`, so the envelope after the call — the
second component — is `w` itself; the inner decode is the caller-chosen
decoder applied to the dynamic value. -/
def WebhookEventData.Parse {α : Type} (w : WebhookEventData)
    (dec : Json → Except String α) : Except String α × WebhookEventData :=
  (dec w.data, w)

/-- `WebhookOrderPaidData` (webhook.go lines 70–77). -/
structure WebhookOrderPaidData where
  wordgateOrderNo : String
  amount : Int
  currency : String
  isPaid : Bool
  paidAt : Option String
  appID : Nat
deriving DecidableEq

/-- `json.Unmarshal` into `WebhookOrderPaidData`: `null` into a struct is a
no-op; a non-object value is a type error. -/
def decodeOrderPaid (j : Json) : Except String WebhookOrderPaidData :=
  match j with
  | .null => .ok ⟨"", 0, "", false, none, 0⟩
  | .obj fs =>
      match decodeStringField fs "wordgate_order_no" with
      | .error e => .error e
      | .ok no =>
          match decodeInt64Field fs "amount" with
          | .error e => .error e
          | .ok amt =>
              match decodeStringField fs "currency" with
              | .error e => .error e
              | .ok cur =>
                  match decodeBoolField fs "is_paid" with
                  | .error e => .error e
                  | .ok paid =>
                      match decodeTimeField fs "paid_at" with
                      | .error e => .error e
                      | .ok at_ =>
                          match decodeUInt64Field fs "app_id" with
                          | .error e => .error e
                          | .ok app => .ok ⟨no, amt, cur, paid, at_, app⟩
  | _ => .error "json: cannot unmarshal value into WebhookOrderPaidData"

/-- The wire envelope of an `order.paid` event whose `amount` is `n` (the
concrete scenario of the spec, with the amount generalized). -/
def orderPaidWire (n : Int) : Json :=
  .obj [("event_type", .str "order.paid"), ("app_id", .num 1),
        ("data", .obj [("wordgate_order_no", .str "ORDER123"), ("amount", .num n),
                       ("currency", .str "USD")]),
        ("timestamp", .num 1734315480)]

/-- The `amount` read back by a receiver that decodes the envelope of
`orderPaidWire n` and then parses its data into `WebhookOrderPaidData`. -/
def amountReadBack (n : Int) : Except String Int :=
  match decodeEnvelope (orderPaidWire n) with
  | .error e => .error e
  | .ok w =>
      match (w.Parse decodeOrderPaid).1 with
      | .error e => .error e
      | .ok d => .ok d.amount

/-! ## Helper lemmas: character sets -/

/-- The characters `formatNat` and `formatInt` may produce besides `'-'`. -/
def isDecDigit (c : Char) : Bool := 48 ≤ c.toNat && c.toNat ≤ 57

theorem isDecDigit_decChar {d : Nat} (hd : d < 10) : isDecDigit (decChar d) = true := by
  interval_cases d <;> decide

theorem charDigit?_decChar {d : Nat} (hd : d < 10) : charDigit? (decChar d) = some d := by
  interval_cases d <;> decide

theorem isDecDigit_spec {c : Char} (h : isDecDigit c = true) :
    c ≠ ',' ∧ c ≠ '-' ∧ c ≠ '+' ∧ isSpaceChar c = false := by
  simp only [isDecDigit, Bool.and_eq_true, decide_eq_true_eq] at h
  refine ⟨?_, ?_, ?_, ?_⟩ <;>
    first
      | (rintro rfl; revert h; decide)
      | (simp only [isSpaceChar, Bool.or_eq_false_iff, decide_eq_false_iff_not]
         refine ⟨⟨⟨?_, ?_⟩, ?_⟩, ?_⟩ <;> (rintro rfl; revert h; decide))

theorem mem_formatNat_isDecDigit {n : Nat} {c : Char} (hc : c ∈ formatNat n) :
    isDecDigit c = true := by
  unfold formatNat at hc
  by_cases hn : n = 0
  · simp [hn] at hc
    subst hc; decide
  · simp only [hn, if_false, List.mem_map, List.mem_reverse] at hc
    obtain ⟨d, hd, rfl⟩ := hc
    exact isDecDigit_decChar (Nat.digits_lt_base (by norm_num) hd)

theorem mem_formatInt {t : Int} {c : Char} (hc : c ∈ formatInt t) :
    isDecDigit c = true ∨ c = '-' := by
  unfold formatInt at hc
  by_cases ht : t < 0
  · simp only [ht, if_true, List.mem_cons] at hc
    rcases hc with rfl | hc
    · exact Or.inr rfl
    · exact Or.inl (mem_formatNat_isDecDigit hc)
  · simp only [ht, if_false] at hc
    exact Or.inl (mem_formatNat_isDecDigit hc)

theorem formatInt_no_comma {t : Int} {c : Char} (hc : c ∈ formatInt t) : c ≠ ',' := by
  rcases mem_formatInt hc with h | rfl
  · exact (isDecDigit_spec h).1
  · decide

theorem hexDigitChar_mem {n : Nat} (hn : n < 16) : hexDigitChar n ∈ hexCharSet := by
  interval_cases n <;> decide

theorem hexCharSet_spec : ∀ c ∈ hexCharSet, c ≠ ',' ∧ isSpaceChar c = false := by decide

/-! ## Helper lemmas: digest and signature shape -/

theorem wordBytes_lt {w b : Nat} (hb : b ∈ wordBytes w) : b < 256 := by
  simp only [wordBytes, List.mem_cons, List.not_mem_nil, or_false] at hb
  rcases hb with rfl | rfl | rfl | rfl <;> omega

theorem sha256_length (msg : List Nat) : (sha256 msg).length = 32 := by
  simp [sha256, wordBytes]

theorem sha256_lt {msg : List Nat} {b : Nat} (hb : b ∈ sha256 msg) : b < 256 := by
  unfold sha256 at hb
  simp only [List.mem_append] at hb
  rcases hb with ((((((h | h) | h) | h) | h) | h) | h) | h <;> exact wordBytes_lt h

theorem hexEncode_length (l : List Nat) : (hexEncode l).length = 2 * l.length := by
  induction l with
  | nil => rfl
  | cons b rest ih => simp [hexEncode, ih]; omega

theorem hexEncode_mem {l : List Nat} (hl : ∀ b ∈ l, b < 256) :
    ∀ c ∈ hexEncode l, c ∈ hexCharSet := by
  induction l with
  | nil => intro c hc; simp [hexEncode] at hc
  | cons b rest ih =>
      intro c hc
      have hb : b < 256 := hl b (List.mem_cons_self b rest)
      simp only [hexEncode, List.mem_cons] at hc
      rcases hc with rfl | rfl | hc
      · exact hexDigitChar_mem (by omega)
      · exact hexDigitChar_mem (by omega)
      · exact ih (fun x hx => hl x (List.mem_cons_of_mem b hx)) c hc

theorem sign_mem_hex {t : Int} {body secret : List Nat} :
    ∀ c ∈ sign t body secret, c ∈ hexCharSet := by
  intro c hc
  exact hexEncode_mem (fun b hb => sha256_lt hb) c hc

theorem sign_length (t : Int) (body secret : List Nat) : (sign t body secret).length = 64 := by
  unfold sign
  rw [hexEncode_length, hmacSha256, sha256_length]

theorem sign_no_comma {t : Int} {body secret : List Nat} {c : Char}
    (hc : c ∈ sign t body secret) : c ≠ ',' :=
  (hexCharSet_spec c (sign_mem_hex c hc)).1

/-! ## Helper lemmas: splitting and tag matching -/

theorem splitOnComma_of_no_comma {l : List Char} (hl : ',' ∉ l) : splitOnComma l = [l] := by
  induction l with
  | nil => rfl
  | cons c rest ih =>
      have hc : ¬ c = ',' := fun h => hl (h ▸ List.mem_cons_self c rest)
      have hrest : ',' ∉ rest := fun h => hl (List.mem_cons_of_mem c h)
      simp only [splitOnComma, hc, if_false, ih hrest]

theorem splitOnComma_append {a b : List Char} (ha : ',' ∉ a) :
    splitOnComma (a ++ ',' :: b) = a :: splitOnComma b := by
  induction a with
  | nil => simp [splitOnComma]
  | cons c rest ih =>
      have hc : ¬ c = ',' := fun h => ha (h ▸ List.mem_cons_self c rest)
      have hrest : ',' ∉ rest := fun h => ha (List.mem_cons_of_mem c h)
      simp only [List.cons_append, splitOnComma, hc, if_false, List.append_eq, ih hrest]

theorem startsWith_self_append (pre l : List Char) : startsWith pre (pre ++ l) = true := by
  induction pre with
  | nil => rfl
  | cons p ps ih => simp [startsWith, ih]

theorem dropTag_self_append (pre l : List Char) : dropTag pre (pre ++ l) = l := by
  simp [dropTag, startsWith_self_append, List.drop_left]

/-! ## Helper lemmas: decimal round trip -/

theorem foldl10_le (l : List Nat) (a : Nat) :
    a ≤ List.foldl (fun acc d => acc * 10 + d) a l := by
  induction l generalizing a with
  | nil => exact Nat.le_refl a
  | cons d t ih => exact Nat.le_trans (by omega) (ih (a * 10 + d))

theorem parseUintAux_map_decChar (l : List Nat) (a : Nat) (hd : ∀ d ∈ l, d < 10)
    (hb : List.foldl (fun acc d => acc * 10 + d) a l < 2 ^ 64) :
    parseUintAux (l.map decChar) a = .ok (List.foldl (fun acc d => acc * 10 + d) a l) := by
  induction l generalizing a with
  | nil => rfl
  | cons d t ih =>
      have hd0 : d < 10 := hd d (List.mem_cons_self d t)
      have hstep : a * 10 + d ≤ List.foldl (fun acc d => acc * 10 + d) (a * 10 + d) t :=
        foldl10_le t (a * 10 + d)
      simp only [List.map_cons, parseUintAux, charDigit?_decChar hd0]
      have hlt : ¬ 2 ^ 64 ≤ a * 10 + d := by
        simp only [List.foldl_cons] at hb
        omega
      simp only [hlt, if_false]
      exact ih (a * 10 + d) (fun x hx => hd x (List.mem_cons_of_mem d hx)) (by simpa using hb)

theorem foldl10_reverse (l : List Nat) (a : Nat) :
    List.foldl (fun acc d => acc * 10 + d) a l.reverse = a * 10 ^ l.length + Nat.ofDigits 10 l := by
  induction l generalizing a with
  | nil => simp [Nat.ofDigits]
  | cons d t ih =>
      simp only [List.reverse_cons, List.foldl_append, List.foldl_cons, List.foldl_nil, ih,
        Nat.ofDigits_cons, List.length_cons]
      ring

theorem parseUintAux_formatNat {n : Nat} (hn : n < 2 ^ 64) :
    parseUintAux (formatNat n) 0 = .ok n := by
  unfold formatNat
  by_cases h0 : n = 0
  · subst h0; decide
  · simp only [h0, if_false]
    have hfold : List.foldl (fun acc d => acc * 10 + d) 0 (Nat.digits 10 n).reverse = n := by
      rw [foldl10_reverse, Nat.ofDigits_digits]
      omega
    rw [parseUintAux_map_decChar _ 0
        (fun d hd => Nat.digits_lt_base (by norm_num) (List.mem_reverse.mp hd))
        (by rw [hfold]; exact hn), hfold]

theorem formatNat_ne_nil (n : Nat) : formatNat n ≠ [] := by
  unfold formatNat
  by_cases h0 : n = 0
  · simp [h0]
  · simp only [h0, if_false, ne_eq, List.map_eq_nil_iff, List.reverse_eq_nil_iff]
    exact Nat.digits_ne_nil_iff_ne_zero.mpr h0

theorem goParseInt64_formatNat {n : Nat} (hn : n < 2 ^ 63) :
    goParseInt64 (formatNat n) = (n : Int) := by
  rcases hc : formatNat n with _ | ⟨c, rest⟩
  · exact absurd hc (formatNat_ne_nil n)
  · have hdig : isDecDigit c = true :=
      mem_formatNat_isDecDigit (by rw [hc]; exact List.mem_cons_self c rest)
    obtain ⟨_, hminus, hplus, _⟩ := isDecDigit_spec hdig
    have hpu : parseUintAux (c :: rest) 0 = .ok n := by
      rw [← hc]; exact parseUintAux_formatNat (by omega)
    simp only [goParseInt64, hminus, hplus, or_self, if_false, decide_eq_true_eq, hpu]
    have h63 : ¬ 2 ^ 63 ≤ n := by omega
    simp [hminus, h63]
    intro h
    exact absurd h h63

theorem goParseInt64_formatInt {t : Int} (hlo : -(2 ^ 63) ≤ t) (hhi : t < 2 ^ 63) :
    goParseInt64 (formatInt t) = t := by
  unfold formatInt
  by_cases ht : t < 0
  · simp only [ht, if_true]
    have hpu : parseUintAux (formatNat t.natAbs) 0 = .ok t.natAbs :=
      parseUintAux_formatNat (by omega)
    have hgt : ¬ 2 ^ 63 < t.natAbs := by omega
    simp only [goParseInt64]
    simp [hgt]
    rw [hpu]
    simp [hgt]
    rw [abs_of_nonpos ht.le]
    omega
  · simp only [ht, if_false]
    rw [goParseInt64_formatNat (by omega)]
    omega

/-! ## Helper lemmas: parsing the built header -/

theorem no_comma_ts_part {t : Int} : ',' ∉ tsTag ++ formatInt t := by
  intro h
  rcases List.mem_append.mp h with h | h
  · revert h; decide
  · exact formatInt_no_comma h rfl

theorem no_comma_sig_part {t : Int} {body secret : List Nat} :
    ',' ∉ sigTag ++ sign t body secret := by
  intro h
  rcases List.mem_append.mp h with h | h
  · revert h; decide
  · exact sign_no_comma h rfl

theorem splitOnComma_buildHeader (t : Int) (body secret : List Nat) :
    splitOnComma (buildHeader t body secret) =
      [tsTag ++ formatInt t, sigTag ++ sign t body secret] := by
  have : buildHeader t body secret =
      (tsTag ++ formatInt t) ++ ',' :: (sigTag ++ sign t body secret) := by
    simp [buildHeader]
  rw [this, splitOnComma_append no_comma_ts_part,
    splitOnComma_of_no_comma no_comma_sig_part]

theorem splitOnComma_buildHeaderRev (t : Int) (body secret : List Nat) :
    splitOnComma (buildHeaderRev t body secret) =
      [sigTag ++ sign t body secret, tsTag ++ formatInt t] := by
  have : buildHeaderRev t body secret =
      (sigTag ++ sign t body secret) ++ ',' :: (tsTag ++ formatInt t) := by
    simp [buildHeaderRev]
  rw [this, splitOnComma_append no_comma_sig_part,
    splitOnComma_of_no_comma no_comma_ts_part]

theorem parseLoop_header_parts (ts' sg : List Char) :
    parseLoop [tsTag ++ ts', sigTag ++ sg] 0 [] = (goParseInt64 ts', sg) := by
  have h1 : startsWith tsTag (tsTag ++ ts') = true := startsWith_self_append tsTag ts'
  have h2 : startsWith tsTag (sigTag ++ sg) = false := rfl
  have h3 : startsWith sigTag (sigTag ++ sg) = true := startsWith_self_append sigTag sg
  simp [parseLoop, h1, h2, h3, dropTag_self_append]

theorem parseLoop_header_parts_rev (ts' sg : List Char) :
    parseLoop [sigTag ++ sg, tsTag ++ ts'] 0 [] = (goParseInt64 ts', sg) := by
  have h1 : startsWith tsTag (tsTag ++ ts') = true := startsWith_self_append tsTag ts'
  have h2 : startsWith tsTag (sigTag ++ sg) = false := rfl
  have h3 : startsWith sigTag (sigTag ++ sg) = true := startsWith_self_append sigTag sg
  simp [parseLoop, h1, h2, h3, dropTag_self_append]

/-- The fields `verifySignature` recovers from a header built by
`generateSignature`: the original timestamp (for `int64` timestamps) and the
original signature. -/
theorem parseHeaderFields_buildHeader {t : Int} (body secret : List Nat)
    (hlo : -(2 ^ 63) ≤ t) (hhi : t < 2 ^ 63) :
    parseHeaderFields (buildHeader t body secret) = (t, sign t body secret) := by
  rw [parseHeaderFields, splitOnComma_buildHeader, parseLoop_header_parts,
    goParseInt64_formatInt hlo hhi]

/-- Evaluation of `verifySignature` on a header built by `generateSignature`
over `(t, body, secret)`, verified against possibly different `(b', s')`. -/
theorem verifySignature_buildHeader {t : Int} (body secret b' s' : List Nat)
    (maxAge now : Int) (hlo : -(2 ^ 63) ≤ t) (hhi : t < 2 ^ 63) :
    verifySignature (buildHeader t body secret) b' s' maxAge now =
      if maxAge < now - t then .expired
      else if sign t body secret = sign t b' s' then .ok
      else .signatureMismatch := by
  simp only [verifySignature, splitOnComma_buildHeader, parseLoop_header_parts,
    goParseInt64_formatInt hlo hhi, List.length_cons, List.length_nil]
  norm_num

/-- A fresh, correctly signed header is accepted (shared kernel of the
round-trip facts). -/
theorem verify_buildHeader_accepts (t : Int) (body secret : List Nat) (maxAge now : Int)
    (hlo : -(2 ^ 63) ≤ t) (hhi : t < 2 ^ 63) (hfresh : now - t ≤ maxAge) :
    verifySignature (buildHeader t body secret) body secret maxAge now = .ok := by
  rw [verifySignature_buildHeader body secret body secret maxAge now hlo hhi,
    if_neg (not_lt.mpr hfresh), if_pos rfl]

/-! ## Claim theorems: the verifier -/

/-- C1 (round-trip): for every `int64` timestamp `t`, body `b`, secret `s`
and window `maxAge`, if the verifier's clock `now` satisfies
`now - t ≤ maxAge`, then `verifySignature` accepts the header produced by
`generateSignature` over the same `(t, b, s)`. -/
theorem verify_roundTrip (t : Int) (body secret : List Nat) (maxAge now : Int)
    (hlo : -(2 ^ 63) ≤ t) (hhi : t < 2 ^ 63) (hfresh : now - t ≤ maxAge) :
    verifySignature (buildHeader t body secret) body secret maxAge now = .ok :=
  verify_buildHeader_accepts t body secret maxAge now hlo hhi hfresh

/-- Witness for C1 at a concrete input. -/
theorem verify_roundTrip_witness :
    verifySignature (buildHeader 1734315480 [1, 2, 3] [7]) [1, 2, 3] [7] 300 1734315580 = .ok :=
  verify_roundTrip 1734315480 [1, 2, 3] [7] 300 1734315580
    (by norm_num) (by norm_num) (by norm_num)

/-- C4 (expiry boundary): with `maxAgeSeconds = 300`, a correctly signed
header timestamped `now - 300` is accepted (in particular it passes the
freshness check), and one timestamped `now - 301` fails with `Expired`. -/
theorem verify_expiry_boundary (body secret : List Nat) (now : Int)
    (hlo : -(2 ^ 63) ≤ now - 301) (hhi : now - 300 < 2 ^ 63) :
    verifySignature (buildHeader (now - 300) body secret) body secret 300 now = .ok ∧
    verifySignature (buildHeader (now - 301) body secret) body secret 300 now = .expired := by
  constructor
  · exact verify_buildHeader_accepts _ _ _ _ _ (by omega) (by omega) (by omega)
  · rw [verifySignature_buildHeader body secret body secret 300 now (by omega) (by omega),
      if_pos (by omega : (300 : Int) < now - (now - 301))]

/-- Witness for C4 at a concrete clock. -/
theorem verify_expiry_boundary_witness :
    verifySignature (buildHeader (1734315480 - 300) [9] [8]) [9] [8] 300 1734315480 = .ok ∧
    verifySignature (buildHeader (1734315480 - 301) [9] [8]) [9] [8] 300 1734315480 = .expired :=
  verify_expiry_boundary [9] [8] 1734315480 (by norm_num) (by norm_num)

/-- C5 (one-sided freshness): the freshness check only rejects
`now - timestamp > maxAge`, so a header whose parsed timestamp lies in the
future never fails with `Expired` for any `maxAge ≥ 0`, and a future-dated
correctly signed header is accepted. -/
theorem verify_freshness_one_sided :
    (∀ (headerValue : List Char) (body secret : List Nat) (maxAge now : Int),
        0 ≤ maxAge → now < (parseHeaderFields headerValue).1 →
        verifySignature headerValue body secret maxAge now ≠ .expired) ∧
    (∀ (t : Int) (body secret : List Nat) (maxAge now : Int),
        -(2 ^ 63) ≤ t → t < 2 ^ 63 → 0 ≤ maxAge → now < t →
        verifySignature (buildHeader t body secret) body secret maxAge now = .ok) := by
  constructor
  · intro headerValue body secret maxAge now hm hfut
    simp only [verifySignature]
    by_cases hl : (splitOnComma headerValue).length ≠ 2
    · simp [hl]
    · simp only [hl, if_false]
      rw [show parseLoop (splitOnComma headerValue) 0 [] = parseHeaderFields headerValue
          from rfl]
      rw [if_neg (by omega : ¬ maxAge < now - (parseHeaderFields headerValue).1)]
      split_ifs <;> simp
  · intro t body secret maxAge now hlo hhi hm hfut
    exact verify_buildHeader_accepts t body secret maxAge now hlo hhi (by omega)

/-- Witness for C5: a future-dated header (timestamp 10, clock 5) is not
rejected as expired, and a future-dated signed header verifies. -/
theorem verify_freshness_one_sided_witness :
    (0 : Int) ≤ 0 ∧ (5 : Int) < (parseHeaderFields ("t=10,sha256=x".data)).1 ∧
    verifySignature ("t=10,sha256=x".data) [] [] 0 5 ≠ .expired ∧
    verifySignature (buildHeader 10 [] []) [] [] 0 5 = .ok :=
  ⟨by norm_num, by decide,
   verify_freshness_one_sided.1 ("t=10,sha256=x".data) [] [] 0 5 (by norm_num) (by decide),
   verify_freshness_one_sided.2 10 [] [] 0 5 (by norm_num) (by norm_num) (by norm_num)
     (by norm_num)⟩

/-- C10 (order-insensitive header parsing): a header carrying the two fields
in the reversed order `sha256=<sig>,t=<ts>` produces exactly the same
verification outcome as the built order `t=<ts>,sha256=<sig>`, whatever body
and secret it is verified against. -/
theorem verify_field_order_insensitive (t : Int) (body secret bv sv : List Nat)
    (maxAge now : Int) :
    verifySignature (buildHeaderRev t body secret) bv sv maxAge now =
      verifySignature (buildHeader t body secret) bv sv maxAge now := by
  simp only [verifySignature, splitOnComma_buildHeader, splitOnComma_buildHeaderRev,
    parseLoop_header_parts, parseLoop_header_parts_rev]
  rfl

/-- C3 counterexample: the header `t=abc,sha256=xyz` has two comma-separated
parts but an unparseable timestamp segment, a case the claim says fails with
`MalformedHeader`; the code ignores the `ParseInt` error, keeps timestamp
`0`, and (with `now = 301 > maxAge = 300`) fails with `Expired` instead. -/
theorem verify_malformed_claim_counterexample :
    verifySignature ['t', '=', 'a', 'b', 'c', ',', 's', 'h', 'a', '2', '5', '6', '=', 'x', 'y', 'z']
        [] [] 300 301 = .expired ∧
    verifySignature ['t', '=', 'a', 'b', 'c', ',', 's', 'h', 'a', '2', '5', '6', '=', 'x', 'y', 'z']
        [] [] 300 301 ≠ .malformedHeader := by
  constructor
  · rfl
  · decide

/-- C3 amended: `verifySignature` fails with `MalformedHeader` exactly when
the comma-split part count differs from 2, and in that case no HMAC is
computed; a missing `t=`/`sha256=` prefix, an unparseable timestamp segment,
a zero timestamp or an empty signature are not detected at parse time — the
verifier proceeds with the defaults (timestamp `0`, signature `""`) and
fails later with `Expired` or `SignatureMismatch`. -/
theorem verify_malformedHeader_iff_split_count (headerValue : List Char)
    (body secret : List Nat) (maxAge now : Int) :
    (verifySignature headerValue body secret maxAge now = .malformedHeader ↔
      (splitOnComma headerValue).length ≠ 2) ∧
    ((splitOnComma headerValue).length ≠ 2 →
      verifySignatureHmacCount headerValue body secret maxAge now = (.malformedHeader, 0)) := by
  constructor
  · unfold verifySignature
    by_cases hl : (splitOnComma headerValue).length ≠ 2
    · simp [hl]
    · simp only [hl, if_false]
      constructor
      · intro h
        split_ifs at h <;> simp_all
      · exact fun h => h.elim
  · intro h
    simp [verifySignatureHmacCount, h]

/-- Witness for the amended C3: a one-part header is rejected as malformed
with zero HMAC computations. -/
theorem verify_malformedHeader_iff_split_count_witness :
    verifySignatureHmacCount ['a'] [] [] 300 301 = (.malformedHeader, 0) :=
  (verify_malformedHeader_iff_split_count ['a'] [] [] 300 301).2 (by decide)

theorem buildHeader_no_space {t : Int} {body secret : List Nat} {c : Char}
    (hc : c ∈ buildHeader t body secret) : isSpaceChar c = false := by
  simp only [buildHeader, List.mem_append, List.mem_cons] at hc
  rcases hc with (hc | hc) | rfl | hc | hc
  · simp only [tsTag, List.mem_cons, List.not_mem_nil, or_false] at hc
    rcases hc with rfl | rfl <;> decide
  · rcases mem_formatInt hc with h | rfl
    · exact (isDecDigit_spec h).2.2.2
    · decide
  · decide
  · simp only [sigTag, List.mem_cons, List.not_mem_nil, or_false] at hc
    rcases hc with rfl | rfl | rfl | rfl | rfl | rfl | rfl <;> decide
  · exact (hexCharSet_spec c (sign_mem_hex c hc)).2

/-- C6 (signer determinism and output format): `Sign` is a pure function —
two calls with identical inputs (any `int64` timestamp, any body, any
secret including the empty one) give identical results — the signature is
exactly 64 characters, all from the lowercase hex alphabet, and the built
header is exactly `t=<timestamp>,sha256=<signature>`: two comma-separated
fields and no whitespace. -/
theorem sign_deterministic_format (t : Int) (body secret : List Nat) :
    sign t body secret = sign t body secret ∧
    (sign t body secret).length = 64 ∧
    (sign t body secret).all (fun c => decide (c ∈ hexCharSet)) = true ∧
    buildHeader t body secret = tsTag ++ formatInt t ++ ',' :: (sigTag ++ sign t body secret) ∧
    (splitOnComma (buildHeader t body secret)).length = 2 ∧
    (buildHeader t body secret).all (fun c => !(isSpaceChar c)) = true := by
  refine ⟨rfl, sign_length t body secret, ?_, rfl, ?_, ?_⟩
  · simp only [List.all_eq_true, decide_eq_true_eq]
    exact sign_mem_hex
  · rw [splitOnComma_buildHeader]
    rfl
  · simp only [List.all_eq_true, Bool.not_eq_eq_eq_not, Bool.not_true]
    exact fun c hc => buildHeader_no_space hc

/-! ## Helper lemmas: binary64 rounding -/

theorem ulpExp_eq_zero {n : Nat} (h : n < 2 ^ 53) : ulpExp n = 0 := by
  have hstep : ulpExp n = if n < 2 ^ 53 then 0 else ulpExpAux 127 (n / 2) + 1 := rfl
  rw [hstep, if_pos h]

theorem roundFNat_eq_of_le {n : Nat} (h : n ≤ 2 ^ 53) : roundFNat n = n := by
  rcases Nat.lt_or_ge n (2 ^ 53) with hlt | hge
  · simp [roundFNat, ulpExp_eq_zero hlt, Nat.mod_one]
  · have hn : n = 2 ^ 53 := by omega
    subst hn
    decide

theorem roundF_eq_of_le {v : Int} (h : v.natAbs ≤ 2 ^ 53) : roundF v = v := by
  unfold roundF
  rcases lt_or_ge v 0 with hv | hv
  · rw [if_pos hv, roundFNat_eq_of_le h]
    omega
  · rw [if_neg (not_lt.mpr hv), roundFNat_eq_of_le h]
    omega

/-! ## Claim theorems: the event envelope -/

/-- C7 (open event-type namespace): every well-formed envelope object — any
string whatsoever in `event_type`, a `uint64` `app_id`, any `data` value,
an `int64` `timestamp` — decodes successfully, and the result carries the
`event_type` string verbatim; no comparison against the predefined event
type constants takes place in the outer decode. -/
theorem decodeEnvelope_open_namespace (fs : List (String × Json)) (s : String)
    (a t : Int) (d : Json)
    (hEt : lookupField "event_type" fs = some (.str s))
    (hA : lookupField "app_id" fs = some (.num a))
    (hD : lookupField "data" fs = some d)
    (hT : lookupField "timestamp" fs = some (.num t))
    (ha1 : 0 ≤ a) (ha2 : a < 2 ^ 64) (ht1 : -(2 ^ 63) ≤ t) (ht2 : t < 2 ^ 63) :
    decodeEnvelope (.obj fs) = .ok ⟨s, a.toNat, toDyn d, t⟩ := by
  simp only [decodeEnvelope, decodeStringField, decodeUInt64Field, decodeInt64Field,
    hEt, hA, hD, hT, Option.getD_some]
  split_ifs with h1 h2
  · rfl
  · exact (h2 ⟨ht1, ht2⟩).elim
  · exact (h1 ⟨ha1, ha2⟩).elim

/-- Witness for C7: an envelope with the unrecognized event type
`custom.unknown` decodes successfully. -/
theorem decodeEnvelope_open_namespace_witness :
    decodeEnvelope (.obj [("event_type", Json.str "custom.unknown"), ("app_id", Json.num 7),
        ("data", Json.null), ("timestamp", Json.num 5)]) =
      .ok ⟨"custom.unknown", (7 : Int).toNat, toDyn Json.null, 5⟩ :=
  decodeEnvelope_open_namespace _ "custom.unknown" 7 5 Json.null
    rfl rfl rfl rfl (by norm_num) (by norm_num) (by norm_num) (by norm_num)

/-- C8 (envelope atomicity under inner-decode failure): `Parse` never writes
to the envelope, so when the inner decode fails the envelope is unchanged —
all four fields are identical — and a later `Parse` with any other target
behaves exactly as if the failed call had never happened. -/
theorem parse_does_not_mutate_envelope {α : Type} (w : WebhookEventData)
    (dec : Json → Except String α) (e : String)
    (_hfail : (w.Parse dec).1 = .error e) :
    (w.Parse dec).2 = w ∧
    ∀ {β : Type} (dec' : Json → Except String β),
      ((w.Parse dec).2).Parse dec' = w.Parse dec' :=
  ⟨rfl, fun _ => rfl⟩

/-- Witness for C8: parsing a non-object payload into
`WebhookOrderPaidData` fails, and the envelope survives unchanged. -/
theorem parse_does_not_mutate_envelope_witness :
    ((WebhookEventData.mk "order.paid" 1 (Json.str "oops") 5).Parse decodeOrderPaid).2 =
      WebhookEventData.mk "order.paid" 1 (Json.str "oops") 5 ∧
    (((WebhookEventData.mk "order.paid" 1 (Json.str "oops") 5).Parse decodeOrderPaid).2).Parse
        decodeOrderPaid =
      (WebhookEventData.mk "order.paid" 1 (Json.str "oops") 5).Parse decodeOrderPaid :=
  have h := parse_does_not_mutate_envelope
    (WebhookEventData.mk "order.paid" 1 (Json.str "oops") 5) decodeOrderPaid
    "json: cannot unmarshal value into WebhookOrderPaidData" rfl
  ⟨h.1, h.2 decodeOrderPaid⟩

theorem decodeInt64Field_num {fs : List (String × Json)} {k : String} {v : Int}
    (h : lookupField k fs = some (.num v)) (h1 : -(2 ^ 63) ≤ v) (h2 : v < 2 ^ 63) :
    decodeInt64Field fs k = .ok v := by
  unfold decodeInt64Field
  rw [h]
  show (if -(2 ^ 63) ≤ v ∧ v < 2 ^ 63 then (Except.ok v : Except String Int)
        else .error ("json: cannot unmarshal number into int64 field " ++ k)) = .ok v
  rw [if_pos ⟨h1, h2⟩]

theorem decodeOrderPaid_data (v : Int) (h1 : -(2 ^ 63) ≤ v) (h2 : v < 2 ^ 63) :
    decodeOrderPaid (Json.obj [("wordgate_order_no", Json.str "ORDER123"),
        ("amount", Json.num v), ("currency", Json.str "USD")]) =
      .ok ⟨"ORDER123", v, "USD", false, none, 0⟩ := by
  have hamt : decodeInt64Field [("wordgate_order_no", Json.str "ORDER123"),
      ("amount", Json.num v), ("currency", Json.str "USD")] "amount" = .ok v :=
    decodeInt64Field_num rfl h1 h2
  simp only [decodeOrderPaid]
  rw [hamt]
  rfl

/-- C9 (integer precision limit of the two-phase decode): because `Data` is
decoded into a binary64-valued dynamic value, the envelope-then-`Parse`
round trip returns an `amount` equal to the wire value for every integer of
magnitude at most `2^53`, while the wire value `2^53 + 1` reads back as
`2^53`, a different integer. -/
theorem amount_binary64_precision :
    (∀ n : Int, n.natAbs ≤ 2 ^ 53 → amountReadBack n = .ok n) ∧
    amountReadBack (2 ^ 53 + 1) = .ok (2 ^ 53) ∧ ((2 : Int) ^ 53 + 1 ≠ 2 ^ 53) := by
  refine ⟨?_, ?_, by norm_num⟩
  · intro n hn
    have henv : decodeEnvelope (orderPaidWire n) =
        .ok ⟨"order.paid", 1, Json.obj [("wordgate_order_no", Json.str "ORDER123"),
          ("amount", Json.num (roundF n)), ("currency", Json.str "USD")], 1734315480⟩ := rfl
    have hrange1 : -(2 ^ 63) ≤ n := by omega
    have hrange2 : n < 2 ^ 63 := by omega
    simp only [amountReadBack, henv, WebhookEventData.Parse, roundF_eq_of_le hn]
    rw [decodeOrderPaid_data n hrange1 hrange2]
  · rfl

/-- Witness for C9: the amount 9900 of the spec's concrete scenario reads
back exactly. -/
theorem amount_binary64_precision_witness : amountReadBack 9900 = .ok 9900 :=
  amount_binary64_precision.1 9900 (by norm_num)

end Wordgate
